import Mathlib

/-!
Verification development for the rfpipe detection core
(`src/rfpipe/search.py`, `src/rfpipe/util.py`).

Shallow embedding conventions:
* complex64 samples are modelled as pairs of exact rationals `Cplx := ℚ × ℚ`;
  a zero pair encodes the "flagged/missing" sentinel, as in the numpy code;
* numpy 4-d visibility arrays (integration × baseline × channel × polarization)
  are nested lists; the rectangular shape invariant of numpy arrays is the
  explicit predicate `Rect4`;
* Python exceptions are values of `PyErr`, and functions that can raise are
  `Except PyErr _`;
* float arithmetic is modelled exactly over `ℚ`; a float division whose
  denominator is zero (which yields inf/nan in numpy, not an exception) is
  modelled by `pyDiv` returning `none`.
-/

/-- Python exceptions that the embedded code can raise. -/
inductive PyErr where
  | assertionError
  | valueError
  | unboundLocalError
  | nameError
  | raiseNotImplemented
  | typeError
  | zeroDivisionError
  deriving DecidableEq, Repr

/-- Complex sample, modelled as (real, imaginary) rational pair. -/
abbrev Cplx := ℚ × ℚ

/-- Complex zero, the flagged-sample sentinel of the data model. -/
def czero : Cplx := (0, 0)

/-- Complex addition. -/
def cadd (a b : Cplx) : Cplx := (a.1 + b.1, a.2 + b.2)

/-- Division of a complex sample by a rational scalar (weight or dt). -/
def cdivq (a : Cplx) (q : ℚ) : Cplx := (a.1 / q, a.2 / q)

/-- Sum of a list of complex samples. -/
def csum (l : List Cplx) : Cplx := l.foldl cadd czero

/-- Visibility cube: integration × baseline × channel × polarization. -/
abbrev VisCube := List (List (List (List Cplx)))

/-- Element access `data[i, j, k, l]`, with the flagged sentinel as default. -/
def getC4 (data : VisCube) (i j k l : ℕ) : Cplx :=
  (((data.getD i []).getD j []).getD k []).getD l czero

/-- Element access into a per-integration slice `data[j, k, l]`. -/
def getC3 (dint : List (List (List Cplx))) (j k l : ℕ) : Cplx :=
  ((dint.getD j []).getD k []).getD l czero

/-- Element access into a (nbl × nchan) coordinate array. -/
def getQ2 (u : List (List ℚ)) (j k : ℕ) : ℚ :=
  (u.getD j []).getD k 0

/-- Shape predicate: the cube is rectangular with the given dimensions,
mirroring the numpy invariant behind `nint, nbl, nchan, npol = data.shape`. -/
def Rect4 (data : VisCube) (nint nbl nchan npol : ℕ) : Prop :=
  data.length = nint ∧
  ∀ a ∈ data, a.length = nbl ∧
    ∀ b ∈ a, b.length = nchan ∧
      ∀ c ∈ b, c.length = npol

instance (data : VisCube) (nint nbl nchan npol : ℕ) :
    Decidable (Rect4 data nint nbl nchan npol) := by
  unfold Rect4; infer_instance

/-- Test `np.any(data)` on a complex cube: some sample is nonzero. -/
def anyNonzero (data : VisCube) : Bool :=
  data.any fun a => a.any fun b => b.any fun c => c.any fun x => decide (x ≠ czero)

/-- Maximum of a list of naturals, modelling `array.max()` on a nonempty
nonnegative integer array (callers guard emptiness, where numpy would raise). -/
def listMaxN (l : List ℕ) : ℕ := l.foldl max 0

/-- Maximum of a list of rationals, modelling `array.max()` on nonempty data. -/
def listMaxQ (l : List ℚ) : ℚ := l.foldl max (l.headD 0)

/-- Mean of a list of rationals, modelling `array.mean()` on nonempty data. -/
def listMean (l : List ℚ) : ℚ := (l.foldl (· + ·) 0) / l.length

/-- Float division `a / b` as numpy computes it: a zero denominator produces a
non-finite value (inf or nan), modelled as `none`. -/
def pyDiv (a b : ℚ) : Option ℚ := if b = 0 then none else some (a / b)

/-- Truncation toward zero, the semantics of Python `int()` and numba `int64()`
applied to a float. -/
def truncQ (q : ℚ) : ℤ := if 0 ≤ q then ⌊q⌋ else -⌊-q⌋

/-- Round half to even, the semantics of `np.round(x, 0)`. -/
def roundQ (q : ℚ) : ℤ :=
  let f := ⌊q⌋
  let r := q - f
  if r < 1/2 then f
  else if 1/2 < r then f + 1
  else if f % 2 = 0 then f else f + 1

/-- Insert into a sorted list of rationals (helper for the numpy median). -/
def insertQ (a : ℚ) : List ℚ → List ℚ
  | [] => [a]
  | b :: t => if a ≤ b then a :: b :: t else b :: insertQ a t

/-- Insertion sort of rationals (helper for the numpy median). -/
def sortQ : List ℚ → List ℚ
  | [] => []
  | a :: t => insertQ a (sortQ t)

/-- Median as `np.median` computes it on a nonempty (flattened) array: sort,
take the middle element, or the mean of the two middle elements when the
length is even. An empty input (where numpy warns and yields nan) maps to 0;
no theorem below relies on that case. -/
def npMedian (l : List ℚ) : ℚ :=
  let s := sortQ l
  let n := s.length
  if n = 0 then 0
  else if n % 2 = 1 then s.getD (n / 2) 0
  else (s.getD (n / 2 - 1) 0 + s.getD (n / 2) 0) / 2

/-- Robust noise estimate from `util.py`:
`madtostd(array) = 1.4826*np.median(np.abs(array-np.median(array)))`.
The array argument is the flattened image. -/
def madtostd (array : List ℚ) : ℚ :=
  14826/10000 * npMedian (array.map fun x => |x - npMedian array|)

/-- Dispersion delay table from `util.py` `calc_delay`:
`delay[i] = int(scale * dm * (1./freq[i]**2 - 1./freqref**2)/inttime)` with
`scale = 4.1488e-3 if not scale else scale` (Python truthiness: both `None`
and `0` select the default). The `int()` cast truncates toward zero. -/
def calc_delay (freq : List ℚ) (freqref dm inttime : ℚ) (scale : Option ℚ) : List ℤ :=
  let scale := match scale with
    | none => 41488/10^7
    | some s => if s = 0 then 41488/10^7 else s
  freq.map fun f => truncQ (scale * dm * (1/f^2 - 1/freqref^2) / inttime)

/-- Number of baselines `data.shape[1]` of a rectangular cube. -/
def dimNbl (data : VisCube) : ℕ := (data.getD 0 []).length

/-- Number of channels `data.shape[2]` of a rectangular cube. -/
def dimNchan (data : VisCube) : ℕ := ((data.getD 0 []).getD 0 []).length

/-- Number of polarizations `data.shape[3]` of a rectangular cube. -/
def dimNpol (data : VisCube) : ℕ := (((data.getD 0 []).getD 0 []).getD 0 []).length

/-!
Dedispersion / resampling kernels from `search.py`.

The numba kernels fill a preallocated `result` array with nested loops that
write each output cell exactly once; they are embedded as comprehensions over
the same index ranges computing the same per-cell expression. The `guvectorize`
variants mutate the input array in place and are then sliced by the wrapper;
because every read position `i*dt + delay[k] + r` is at least as large as the
write position `i` (delays and dt are nonnegative), each read still sees the
original value, so the in-place loop is embedded as the same comprehension on
the original array followed by the untouched tail. Search-path delay tables
are nonnegative, so kernel delays are `List ℕ` here (the negative-index
wraparound Python would apply to a negative delay is not modelled). -/

/-- Kernel `_dedisperse_jit`: `result[i, j, k, l] = data[i + delay[k], j, k, l]`
for `i < nint - delay.max()`. -/
def _dedisperse_jit (data : VisCube) (delay : List ℕ) : VisCube :=
  (List.range (data.length - listMaxN delay)).map fun i =>
    (List.range (dimNbl data)).map fun j =>
      (List.range (dimNchan data)).map fun k =>
        (List.range (dimNpol data)).map fun l =>
          getC4 data (i + delay.getD k 0) j k l

/-- Kernel `_dedisperse_gu`: shifts the first `nint - delay.max()` integrations
in place when `delay.max() > 0`; the trailing integrations keep their original
values (the wrapper slices them off). -/
def _dedisperse_gu (data : VisCube) (delay : List ℕ) : VisCube :=
  if 0 < listMaxN delay then
    ((List.range (data.length - listMaxN delay)).map fun i =>
      (List.range (dimNbl data)).map fun j =>
        (List.range (dimNchan data)).map fun k =>
          (List.range (dimNpol data)).map fun l =>
            getC4 data (i + delay.getD k 0) j k l)
      ++ data.drop (data.length - listMaxN delay)
  else data

/-- Wrapper `dedisperse` from `search.py`: all-zero data short-circuits to an
empty result; otherwise the log call evaluates `delay.max()` (raising on an
empty delay array) and the selected kernel runs. -/
def dedisperse (data : VisCube) (delay : List ℕ) (parallel : Bool) :
    Except PyErr VisCube :=
  if anyNonzero data = false then .ok []
  else if delay.isEmpty then .error .valueError
  else if parallel then
    .ok ((_dedisperse_gu data delay).take (data.length - listMaxN delay))
  else .ok (_dedisperse_jit data delay)

/-- Kernel `_resample_jit`: each output sample is the verbatim mean of `dt`
consecutive input samples (zeros included, no weight bookkeeping). -/
def _resample_jit (data : VisCube) (dt : ℕ) : VisCube :=
  (List.range (data.length / dt)).map fun i =>
    (List.range (dimNbl data)).map fun j =>
      (List.range (dimNchan data)).map fun k =>
        (List.range (dimNpol data)).map fun l =>
          cdivq (csum ((List.range dt).map fun r => getC4 data (i * dt + r) j k l)) dt

/-- Kernel `_resample_gu`: in-place variant of `_resample_jit`, guarded by
`dt > 1`; the wrapper slices the first `len0 // dt` integrations. -/
def _resample_gu (data : VisCube) (dt : ℕ) : VisCube :=
  if 1 < dt then
    ((List.range (data.length / dt)).map fun i =>
      (List.range (dimNbl data)).map fun j =>
        (List.range (dimNchan data)).map fun k =>
          (List.range (dimNpol data)).map fun l =>
            cdivq (csum ((List.range dt).map fun r => getC4 data (i * dt + r) j k l)) dt)
      ++ data.drop (data.length / dt)
  else data

/-- Wrapper `resample` from `search.py`: all-zero data short-circuits to an
empty result; otherwise the new shape divides by `dt` (raising on `dt = 0`)
and the selected kernel runs. -/
def resample (data : VisCube) (dt : ℕ) (parallel : Bool) : Except PyErr VisCube :=
  if anyNonzero data = false then .ok []
  else if dt = 0 then .error .zeroDivisionError
  else if parallel then .ok ((_resample_gu data dt).take (data.length / dt))
  else .ok (_resample_jit data dt)

/-- List of the `dt` input samples a fused output cell reads:
`data[i*dt + delay[k] + r, j, k, l]` for `r` in `[0, dt)`. -/
def drAccess (data : VisCube) (delay : List ℕ) (dt i j k l : ℕ) : List Cplx :=
  (List.range dt).map fun r => getC4 data (i * dt + delay.getD k 0 + r) j k l

/-- Weight of a cell: the number of nonzero (non-flagged) samples, as
accumulated by `if val != 0j: weight += 1`. -/
def wcount (vals : List Cplx) : ℕ :=
  vals.foldl (fun w v => if v ≠ czero then w + 1 else w) 0

/-- Per-cell accumulation of `_dedisperseresample_jit`: sum the samples,
count the nonzero ones as weight, divide by the weight if positive, else the
cell is the zero sentinel (`result[i,j,k,l] = weight` with `weight = 0`). -/
def cellAccum (vals : List Cplx) : Cplx :=
  if 0 < wcount vals then cdivq (csum vals) (wcount vals) else czero

/-- Kernel `_dedisperseresample_jit`: fused dedisperse+resample filling a
preallocated result of `nintout` integrations. -/
def _dedisperseresample_jit (data : VisCube) (delay : List ℕ) (dt nintout : ℕ) :
    VisCube :=
  (List.range nintout).map fun i =>
    (List.range (dimNbl data)).map fun j =>
      (List.range (dimNchan data)).map fun k =>
        (List.range (dimNpol data)).map fun l =>
          cellAccum (drAccess data delay dt i j k l)

/-- Kernel `_dedisperseresample_gu`: in-place fused variant, guarded by
`delay.max() > 0 or dt > 1`; the wrapper slices the output length. -/
def _dedisperseresample_gu (data : VisCube) (delay : List ℕ) (dt : ℕ) : VisCube :=
  if 0 < listMaxN delay ∨ 1 < dt then
    ((List.range ((data.length - listMaxN delay) / dt)).map fun i =>
      (List.range (dimNbl data)).map fun j =>
        (List.range (dimNchan data)).map fun k =>
          (List.range (dimNpol data)).map fun l =>
            cellAccum (drAccess data delay dt i j k l))
      ++ data.drop ((data.length - listMaxN delay) / dt)
  else data

/-- Wrapper `dedisperseresample` from `search.py`: all-zero data
short-circuits to an empty result; the log call evaluates `delay.max()`
(raising on an empty delay array), the new shape divides by `dt` (raising on
`dt = 0`), and the selected kernel runs. -/
def dedisperseresample (data : VisCube) (delay : List ℕ) (dt : ℕ)
    (parallel : Bool) : Except PyErr VisCube :=
  if anyNonzero data = false then .ok []
  else if delay.isEmpty then .error .valueError
  else if dt = 0 then .error .zeroDivisionError
  else if parallel then
    .ok ((_dedisperseresample_gu data delay dt).take
      ((data.length - listMaxN delay) / dt))
  else
    .ok (_dedisperseresample_jit data delay dt
      ((data.length - listMaxN delay) / dt))

/-!
Gridding backends from `search.py` (`_grid_visibilities_jit`,
`_grid_visibilities_gu` and the `grid_visibilities` dispatcher). A grid is an
`npixx × npixy` complex matrix; the per-integration grid list is built by
iterating the (baseline, channel) pairs of the nested source loops in
lexicographic order. -/

/-- Sky-frequency grid: `npixx` rows of `npixy` complex cells. -/
abbrev Grid := List (List Cplx)

/-- Grid of zeros, `np.zeros((npixx, npixy))`. -/
def zeroGrid (npixx npixy : ℕ) : Grid :=
  List.replicate npixx (List.replicate npixy czero)

/-- Replace the `i`-th element of a list by `f` of it (out-of-range is a
no-op; all gridder indices are in range after the modulo fold). -/
def listModify (l : List α) (i : ℕ) (f : α → α) : List α :=
  match l, i with
  | [], _ => []
  | a :: t, 0 => f a :: t
  | a :: t, n + 1 => a :: listModify t n f

/-- Accumulate a visibility into one grid cell: `grid[x, y] += val`. -/
def gridAdd (g : Grid) (x y : ℕ) (val : Cplx) : Grid :=
  listModify g x fun row => listModify row y fun c => cadd c val

/-- Lexicographic enumeration of the nested `for j ... for k ...` loops over
(baseline, channel) pairs. -/
def pairList (nbl nchan : ℕ) : List (ℕ × ℕ) :=
  (List.range nbl).flatMap fun j => (List.range nchan).map fun k => (j, k)

/-- Kernel `_grid_visibilities_jit`: for each (baseline, channel) pair the
scaled coordinates are cast with `int64` (truncation toward zero). The source
guards with `np.abs(ubl < npixx//2)) and (np.abs(vbl < npixy//2)`, i.e. `abs`
applied to the comparison booleans, which preserves truthiness: the effective
condition is the bare upper-bound comparisons, with no lower bound. Kept
pairs fold through `np.mod` and accumulate every polarization of every
integration into that cell. -/
def _grid_visibilities_jit (data : VisCube) (u v : List (List ℚ))
    (npixx npixy : ℕ) (uvres : ℚ) : List Grid :=
  let npol := dimNpol data
  (pairList (dimNbl data) (dimNchan data)).foldl
    (fun grids jk =>
      let ubl : ℤ := truncQ (getQ2 u jk.1 jk.2 / uvres)
      let vbl : ℤ := truncQ (getQ2 v jk.1 jk.2 / uvres)
      if ubl < ((npixx / 2 : ℕ) : ℤ) ∧ vbl < ((npixy / 2 : ℕ) : ℤ) then
        let umod := (ubl % (npixx : ℤ)).toNat
        let vmod := (vbl % (npixy : ℤ)).toNat
        List.zipWith
          (fun g dint =>
            (List.range npol).foldl
              (fun g l => gridAdd g umod vmod (getC3 dint jk.1 jk.2 l)) g)
          grids data
      else grids)
    (List.replicate data.length (zeroGrid npixx npixy))

/-- Kernel `_grid_visibilities_gu`: vectorized per integration; the scaled
coordinates are rounded with `np.round` (half to even) and the guard is the
two-sided `np.abs(ubl) < npixx//2 and np.abs(vbl) < npixy//2`; kept pairs
fold through `np.mod` and accumulate every polarization. Loop bounds come
from the per-integration slice shape. -/
def _grid_visibilities_gu (data : VisCube) (u v : List (List ℚ))
    (npixx npixy : ℕ) (uvres : ℚ) : List Grid :=
  data.map fun dint =>
    (pairList dint.length (dint.getD 0 []).length).foldl
      (fun g jk =>
        let ubl : ℤ := roundQ (getQ2 u jk.1 jk.2 / uvres)
        let vbl : ℤ := roundQ (getQ2 v jk.1 jk.2 / uvres)
        if |ubl| < ((npixx / 2 : ℕ) : ℤ) ∧ |vbl| < ((npixy / 2 : ℕ) : ℤ) then
          (List.range ((dint.getD 0 []).getD 0 []).length).foldl
            (fun g l =>
              gridAdd g (ubl % (npixx : ℤ)).toNat (vbl % (npixy : ℤ)).toNat
                (getC3 dint jk.1 jk.2 l)) g
        else g)
      (zeroGrid npixx npixy)

/-- Dispatcher `grid_visibilities`: backend selection by the `parallel` flag. -/
def grid_visibilities (data : VisCube) (u v : List (List ℚ))
    (npixx npixy : ℕ) (uvres : ℚ) (parallel : Bool) : List Grid :=
  if parallel then _grid_visibilities_gu data u v npixx npixy uvres
  else _grid_visibilities_jit data u v npixx npixy uvres

/-- Modelled from the spec (§4.3 Gridder), for comparison with the two code
backends: for each (baseline, channel), compute rounded grid coordinates
uP = round(u/cellRes), vP = round(v/cellRes); discard pairs where
|uP| ≥ npixx/2 or |vP| ≥ npixy/2 (out-of-field); fold kept coordinates into
non-negative indices via modulo; accumulate the visibilities of all polarizations at
that cell for every integration. Rounding is half-to-even as in the code, and
the half-width is the integer `npixx // 2` as in the code. -/
def specGrid_visibilities (data : VisCube) (u v : List (List ℚ))
    (npixx npixy : ℕ) (uvres : ℚ) : List Grid :=
  data.map fun dint =>
    (pairList dint.length (dint.getD 0 []).length).foldl
      (fun g jk =>
        let uP : ℤ := roundQ (getQ2 u jk.1 jk.2 / uvres)
        let vP : ℤ := roundQ (getQ2 v jk.1 jk.2 / uvres)
        if ((npixx / 2 : ℕ) : ℤ) ≤ |uP| ∨ ((npixy / 2 : ℕ) : ℤ) ≤ |vP| then g
        else
          gridAdd g (uP % (npixx : ℤ)).toNat (vP % (npixy : ℤ)).toNat
            (csum ((dint.getD jk.1 []).getD jk.2 [])))
      (zeroGrid npixx npixy)

/-!
Thresholding, candidate accumulation and dispatch from `search.py`.

The imaging pipeline itself (pyfftw/rfgpu transforms, `st.get_search_ints`,
coordinate conversion and phase shifting) feeds the threshold-and-accumulate
skeleton with per-integration detections; for the accumulation claims the
skeleton is embedded with the sequence of accepted candidates (those that
cleared all thresholds, in loop order) as input, each abstracted to an
identifier. The `candidates` module (CandCollection, CandData, calc_features,
save_cands) is part of this repository but not under `src/`; it is modelled
from the spec where noted. -/

/-- Peak SNR of the fftw search path (`search_thresh_fftw`):
`peak_snr = image.max()/util.madtostd(image)`, with no guard on a zero noise
estimate: for `madtostd(image) = 0` the float quotient is non-finite
(`pyDiv` returns `none`). The image argument is the flattened image. -/
def fftwPeakSnr (image : List ℚ) : Option ℚ :=
  pyDiv (listMaxQ image) (madtostd image)

/-- Peak SNR of the cuda search path (`dedisperse_image_cuda`):
`stats` max over rms when the rms is nonzero, else 0. -/
def cudaPeakSnr (mx rms : ℚ) : ℚ :=
  if rms ≠ 0 then mx / rms else 0

/-- Candidate identifier (an accepted CandData, abstracted). -/
abbrev Cand := ℕ

/-- Modelled from the spec (§3, §4.5): `candidates.calc_features` (not under
`src/`) converts each buffered CandData into a permanent feature record; the
conversion preserves the candidates and their order, so it is the identity on
the abstract identifiers. -/
def calc_features (canddatalist : List Cand) : List Cand := canddatalist

/-- Per-candidate accumulation loop shared by `search_thresh_fftw`
(image1/image1k branch) and `dedisperse_image_cuda`: append the accepted
candidate to the in-flight buffer; if
`len(canddatalist)*bytespercd/1000**3 > memory_limit` flush the buffer into
the collection via `calc_features` and clear it. -/
def accumStep (bytespercd memlimit : ℚ) (cb : List Cand × List Cand)
    (c : Cand) : List Cand × List Cand :=
  let buf := cb.2 ++ [c]
  if buf.length * bytespercd / 1000 ^ 3 > memlimit then
    (cb.1 ++ calc_features buf, [])
  else (cb.1, buf)

/-- Accumulation over the whole accepted-candidate sequence, starting from an
empty collection and an empty buffer; returns (collection, remaining buffer). -/
def accumLoop (bytespercd memlimit : ℚ) (accepted : List Cand) :
    List Cand × List Cand :=
  accepted.foldl (accumStep bytespercd memlimit) ([], [])

/-- Skeleton of `search_thresh_fftw`: control flow of the searchtype dispatch
and candidate accumulation. For `image1`/`image1k` the loop accumulates with
memory-limit flushes and line 520 performs a final
`candcollection += candidates.calc_features(canddatalist)`. For
`imagearm`/`imagearmk` the loop appends to `canddatalist` but the branch has
no flush at all, so the initial empty collection is returned (and in
`imagearm` the append itself references the undefined name `armimage`,
raising NameError on the first accepted candidate). Any other searchtype
raises at the `raise NotImplemented(...)` line. The all-zero-data and
empty-integration early returns precede any accepted candidate and are
subsumed by an empty `accepted` list. -/
def search_thresh_fftw (searchtype : String) (accepted : List Cand)
    (bytespercd memlimit : ℚ) : Except PyErr (List Cand) :=
  if searchtype = "image1" ∨ searchtype = "image1k" then
    let cb := accumLoop bytespercd memlimit accepted
    .ok (cb.1 ++ calc_features cb.2)
  else if searchtype = "imagearm" ∨ searchtype = "imagearmk" then
    if searchtype = "imagearm" ∧ accepted ≠ [] then .error .nameError
    else
      let _canddatalist := accepted
      .ok []
  else .error .raiseNotImplemented

/-- Dyadic-ladder check of `dedisperse_image_cuda`:
`all(st.dtarr[i]*2 == st.dtarr[i+1])`. -/
def dyadicLadder (dtarr : List ℕ) : Bool :=
  (List.range (dtarr.length - 1)).all fun i =>
    dtarr.getD i 0 * 2 = dtarr.getD (i + 1) 0

/-- Skeleton of `dedisperse_image_cuda`: the two `assert`s on the dt ladder,
the all-zero-data early return, the accumulation loop with memory-limit
flushes, and the final `candcollection += candidates.calc_features(...)` at
line 378. GPU gridding/imaging is abstracted into the accepted-candidate
sequence as for the fftw skeleton. -/
def dedisperse_image_cuda (dtarr : List ℕ) (anyData : Bool)
    (accepted : List Cand) (bytespercd memlimit : ℚ) :
    Except PyErr (List Cand) :=
  if ¬ dtarr.headD 0 = 1 then .error .assertionError
  else if ¬ dyadicLadder dtarr then .error .assertionError
  else if anyData = false then .ok []
  else
    let cb := accumLoop bytespercd memlimit accepted
    .ok (cb.1 ++ calc_features cb.2)

/-- Dispatcher `prep_and_search`: after `source.data_prep` (external), the
fftmode string selects the backend; the results of the two backends are
parameters here. For any other fftmode the function logs a warning but then
evaluates `candidates.save_cands(st, candcollection)` with the local
`candcollection` never assigned on that path, raising UnboundLocalError
(`save_cands`, not under `src/`, persists the collection and is modelled from
the spec as returning it unchanged). -/
def prep_and_search (fftmode : String) (cudaResult fftwResult : List Cand) :
    Except PyErr (List Cand) :=
  if fftmode = "cuda" then .ok cudaResult
  else if fftmode = "fftw" then .ok fftwResult
  else .error .unboundLocalError

/-!
Kalman significance estimator from `search.py`. The Monte-Carlo calibration
of `kalman_prepare_coeffs` draws `np.random.normal` samples and fits
percentiles with `np.polyfit`; that randomized fit is abstracted as the
oracle `fit : ℚ → ℚ × ℚ` mapping a smoothness scale to its
(slope, intercept) pair. The per-channel log-likelihood terms use
`np.log(2*np.pi*x)`, an irrational function abstracted as the oracle
`logTerm : ℚ → ℚ` with `logTerm x` standing for `log(2*pi*x)`. -/

/-- Core `kalman_filter_detector`: one sequential pass over the channels,
maintaining the state estimate (cur_mu, cur_state_v) and the accumulated
log-likelihood, then subtracting the null-hypothesis log-likelihood. -/
def kalman_filter_detector (spec spec_std : List ℚ) (sig_t : ℚ)
    (A_0 sig_0 : Option ℚ) (logTerm : ℚ → ℚ) : ℚ :=
  let a0 := A_0.getD (listMean spec)
  let s0 := sig_0.getD (npMedian spec_std)
  let spec0 := spec.map fun x => x - listMean spec
  let st := (List.zip spec0 spec_std).foldl
    (fun (st : ℚ × ℚ × ℚ) zs =>
      let cur_mu := st.1
      let cur_state_v := st.2.1
      let cur_log_l := st.2.2
      let cur_z := zs.1
      let cur_spec_v := zs.2 ^ 2
      let cur_log_l := cur_log_l
        + (-(cur_z - cur_mu) ^ 2 / (cur_state_v + cur_spec_v + sig_t ^ 2) / 2
          - 1/2 * logTerm (cur_state_v + cur_spec_v + sig_t ^ 2))
      let new_mu := (cur_mu / cur_state_v + cur_z / cur_spec_v)
        / (1 / cur_state_v + 1 / cur_spec_v)
      let new_state_v := cur_spec_v * cur_state_v / (cur_spec_v + cur_state_v)
        + sig_t ^ 2
      (new_mu, new_state_v, cur_log_l))
    (a0, s0 ^ 2, 0)
  let h0 := -((List.zip spec0 spec_std).foldl
      (fun acc zs => acc + zs.1 ^ 2 / zs.2 ^ 2 / 2) 0)
    - spec_std.foldl (fun acc s => acc + 1/2 * logTerm (s ^ 2)) 0
  st.2.2 - h0

/-- Function `kalman_prepare_coeffs`: defaults the smoothness scales to
`[0.3, 0.1, 0.03, 0.01] * median(data_std)` when none are given, measures a
coefficient pair per scale (Monte-Carlo fit abstracted as `fit`), and
returns the TUPLE `(sig_ts, coeffs)`. -/
def kalman_prepare_coeffs (data_std : List ℚ) (sig_ts : Option (List ℚ))
    (fit : ℚ → ℚ × ℚ) : List ℚ × List (ℚ × ℚ) :=
  let ts := match sig_ts with
    | none => [3/10, 1/10, 3/100, 1/100].map fun x => x * npMedian data_std
    | some l => l
  (ts, ts.map fit)

/-- Value of the Python local `coeffs` inside `kalman_significance`: either
the caller-supplied list of (slope, intercept) pairs, or — when the fallback
branch runs — the whole (sig_ts, coeffs) tuple returned by
`kalman_prepare_coeffs`, bound as one object. `pyLen` is Python `len` on that
value: a tuple has length 2. -/
inductive KCoeffs where
  | plist : List (ℚ × ℚ) → KCoeffs
  | ptuple : List ℚ × List (ℚ × ℚ) → KCoeffs

/-- Python `len` of the `coeffs` local. -/
def KCoeffs.pyLen : KCoeffs → ℕ
  | .plist l => l.length
  | .ptuple _ => 2

/-- Function `kalman_significance`: defaults empty `sig_ts` to the four
scaled scales; an empty `coeffs` is replaced by the whole tuple returned by
`kalman_prepare_coeffs`; then `assert len(sig_ts) == len(coeffs)` raises
AssertionError on mismatch. On the list path the significances
`x_coeff*score + const_coeff` are collected and the result is their maximum
(the source multiplies by the fixed positive constant `np.log(2)` to convert
to nats; the returned rational is the factor of that constant). On the
tuple path with matching lengths the element unpacking operates on
heterogeneous tuple members, modelled as TypeError (not exercised here). -/
def kalman_significance (spec spec_std : List ℚ) (sig_ts : List ℚ)
    (coeffs : List (ℚ × ℚ)) (fit : ℚ → ℚ × ℚ) (logTerm : ℚ → ℚ) :
    Except PyErr ℚ :=
  let sig_ts := if sig_ts.length = 0 then
      [3/10, 1/10, 3/100, 1/100].map fun x => x * npMedian spec_std
    else sig_ts
  let coeffsv : KCoeffs := if coeffs.length = 0 then
      .ptuple (kalman_prepare_coeffs spec_std (some sig_ts) fit)
    else .plist coeffs
  if sig_ts.length = coeffsv.pyLen then
    match coeffsv with
    | .plist l =>
      let significances := (List.zip sig_ts l).map fun tc =>
        tc.2.1 * kalman_filter_detector spec spec_std tc.1 none none logTerm
          + tc.2.2
      .ok (listMaxQ significances)
    | .ptuple _ => .error .typeError
  else .error .assertionError

deriving instance DecidableEq for Except

/-!
Helper lemmas. -/

lemma cadd_assoc (a b c : Cplx) : cadd (cadd a b) c = cadd a (cadd b c) := by
  simp [cadd, add_assoc]

lemma cadd_czero (a : Cplx) : cadd a czero = a := by
  simp [cadd, czero]

lemma czero_cadd (a : Cplx) : cadd czero a = a := by
  simp [cadd, czero]

lemma foldl_cadd_eq (l : List Cplx) : ∀ a, l.foldl cadd a = cadd a (csum l) := by
  induction l with
  | nil => intro a; simp [csum, cadd_czero]
  | cons x t ih =>
    intro a
    have hc : csum (x :: t) = cadd x (csum t) := by
      simp only [csum, List.foldl_cons]
      rw [ih (cadd czero x), czero_cadd]
      rfl
    simp only [List.foldl_cons]
    rw [ih (cadd a x), hc, cadd_assoc]

lemma csum_cons (x : Cplx) (t : List Cplx) : csum (x :: t) = cadd x (csum t) := by
  simp only [csum, List.foldl_cons]
  rw [foldl_cadd_eq, czero_cadd]
  rfl

lemma csum_append (l₁ l₂ : List Cplx) :
    csum (l₁ ++ l₂) = cadd (csum l₁) (csum l₂) := by
  simp only [csum, List.foldl_append]
  rw [foldl_cadd_eq]
  rfl

lemma csum_all_zero (l : List Cplx) (h : ∀ x ∈ l, x = czero) : csum l = czero := by
  induction l with
  | nil => rfl
  | cons x t ih =>
    rw [csum_cons, h x (List.mem_cons_self x t), czero_cadd]
    exact ih fun y hy => h y (List.mem_cons_of_mem x hy)

lemma foldl_wstep_eq (l : List Cplx) :
    ∀ a, l.foldl (fun w v => if v ≠ czero then w + 1 else w) a = a + wcount l := by
  induction l with
  | nil => intro a; simp [wcount]
  | cons x t ih =>
    intro a
    have hc : wcount (x :: t) =
        (if x ≠ czero then 0 + 1 else 0) + wcount t := by
      simp only [wcount, List.foldl_cons]
      rw [ih]
      rfl
    simp only [List.foldl_cons]
    rw [ih, hc]
    by_cases hx : x = czero <;> (simp [hx]; try omega)

lemma wcount_cons (x : Cplx) (t : List Cplx) :
    wcount (x :: t) = (if x ≠ czero then 1 else 0) + wcount t := by
  have h := foldl_wstep_eq (x :: t) 0
  simp only [List.foldl_cons] at h
  rw [foldl_wstep_eq t] at h
  by_cases hx : x = czero <;> (simp [hx] at h ⊢; omega)

lemma wcount_append (l₁ l₂ : List Cplx) :
    wcount (l₁ ++ l₂) = wcount l₁ + wcount l₂ := by
  simp only [wcount, List.foldl_append]
  rw [foldl_wstep_eq]
  rfl

lemma wcount_all_zero (l : List Cplx) (h : ∀ x ∈ l, x = czero) : wcount l = 0 := by
  induction l with
  | nil => rfl
  | cons x t ih =>
    rw [wcount_cons, h x (List.mem_cons_self x t)]
    simp [ih fun y hy => h y (List.mem_cons_of_mem x hy)]

lemma cdivq_one (v : Cplx) : cdivq v 1 = v := by
  simp [cdivq]

lemma cellAccum_all_zero (vals : List Cplx) (h : ∀ x ∈ vals, x = czero) :
    cellAccum vals = czero := by
  simp [cellAccum, wcount_all_zero vals h]

lemma cellAccum_single (v : Cplx) (l₁ l₂ : List Cplx) (hv : v ≠ czero)
    (h₁ : ∀ x ∈ l₁, x = czero) (h₂ : ∀ x ∈ l₂, x = czero) :
    cellAccum (l₁ ++ v :: l₂) = v := by
  have hw : wcount (l₁ ++ v :: l₂) = 1 := by
    rw [wcount_append, wcount_cons, wcount_all_zero l₁ h₁, wcount_all_zero l₂ h₂]
    simp [hv]
  have hs : csum (l₁ ++ v :: l₂) = v := by
    rw [csum_append, csum_cons, csum_all_zero l₁ h₁, csum_all_zero l₂ h₂,
      czero_cadd, cadd_czero]
  simp [cellAccum, hw, hs, cdivq_one]

lemma cellAccum_singleton (v : Cplx) : cellAccum [v] = v := by
  by_cases hv : v = czero
  · subst hv
    exact cellAccum_all_zero [czero] (by simp)
  · exact cellAccum_single v [] [] hv (by simp) (by simp)

lemma getD_range_map (f : ℕ → α) (n i : ℕ) (h : i < n) (d : α) :
    ((List.range n).map f).getD i d = f i := by
  rw [List.getD_eq_getElem?_getD, List.getElem?_map, List.getElem?_range h]
  rfl

lemma map_range_getD (l : List α) (d : α) :
    (List.range l.length).map (fun i => l.getD i d) = l := by
  induction l with
  | nil => simp
  | cons a t ih =>
    rw [List.length_cons, List.range_succ_eq_map, List.map_cons, List.map_map]
    have h2 : (fun i => (a :: t).getD i d) ∘ Nat.succ = fun i => t.getD i d := by
      funext i
      rfl
    rw [h2, ih]
    rfl

lemma map_range_eq_of_getD (l : List α) (d : α) (f : ℕ → α) (n : ℕ)
    (hlen : n = l.length) (h : ∀ i, i < n → f i = l.getD i d) :
    (List.range n).map f = l := by
  subst hlen
  have : ∀ i ∈ List.range l.length, f i = l.getD i d := by
    intro i hi
    exact h i (List.mem_range.mp hi)
  rw [List.map_congr_left this, map_range_getD]

lemma getD_mem_of_lt (l : List α) (i : ℕ) (d : α) (h : i < l.length) :
    l.getD i d ∈ l := by
  rw [List.getD_eq_getElem l d h]
  exact List.getElem_mem h

lemma getD_all_zero (l : List ℕ) (h : ∀ x ∈ l, x = 0) (k : ℕ) :
    l.getD k 0 = 0 := by
  by_cases hk : k < l.length
  · exact h _ (getD_mem_of_lt l k 0 hk)
  · rw [List.getD_eq_default]
    omega

lemma listMaxN_all_zero (l : List ℕ) (h : ∀ x ∈ l, x = 0) : listMaxN l = 0 := by
  induction l with
  | nil => rfl
  | cons a t ih =>
    have ha : a = 0 := h a (List.mem_cons_self a t)
    subst ha
    simp only [listMaxN, List.foldl_cons, Nat.max_self]
    exact ih fun y hy => h y (List.mem_cons_of_mem 0 hy)

lemma accumStep_join (b m : ℚ) (cb : List Cand × List Cand) (c : Cand) :
    (accumStep b m cb c).1 ++ (accumStep b m cb c).2 = cb.1 ++ cb.2 ++ [c] := by
  simp only [accumStep]
  split <;> simp [calc_features, List.append_assoc]

lemma foldl_accumStep_join (b m : ℚ) (accepted : List Cand) :
    ∀ cb : List Cand × List Cand,
      (accepted.foldl (accumStep b m) cb).1 ++ (accepted.foldl (accumStep b m) cb).2 =
        cb.1 ++ cb.2 ++ accepted := by
  induction accepted with
  | nil => intro cb; simp
  | cons a t ih =>
    intro cb
    simp only [List.foldl_cons]
    rw [ih (accumStep b m cb a), accumStep_join]
    simp [List.append_assoc]

lemma accumLoop_join (b m : ℚ) (accepted : List Cand) :
    (accumLoop b m accepted).1 ++ (accumLoop b m accepted).2 = accepted := by
  rw [accumLoop, foldl_accumStep_join]
  simp

lemma zipWith_fst (gs : List α) (ds : List β) (h : gs.length = ds.length) :
    List.zipWith (fun g _ => g) gs ds = gs := by
  induction gs generalizing ds with
  | nil => simp
  | cons g gs ih =>
    cases ds with
    | nil => simp at h
    | cons d ds =>
      simp only [List.zipWith_cons_cons]
      rw [ih ds (by simpa using h)]

lemma zipWith_zipWith_left (f g : α → β → α) (as : List α) (bs : List β) :
    List.zipWith g (List.zipWith f as bs) bs =
      List.zipWith (fun a b => g (f a b) b) as bs := by
  induction as generalizing bs with
  | nil => simp
  | cons a as ih => cases bs <;> simp [ih]

lemma zipWith_replicate_map (f : α → β → α) (z : α) (ds : List β) :
    List.zipWith f (List.replicate ds.length z) ds = ds.map (f z) := by
  induction ds with
  | nil => simp
  | cons d ds ih => simp [List.replicate_succ, ih]

lemma foldl_ite_zipWith {P : Type} (c : P → Prop) [DecidablePred c]
    (F : P → α → β → α) (ps : List P) (ds : List β) :
    ∀ gs : List α, gs.length = ds.length →
      ps.foldl (fun gs p => if c p then List.zipWith (F p) gs ds else gs) gs =
        List.zipWith
          (fun g d => ps.foldl (fun g p => if c p then F p g d else g) g) gs ds := by
  induction ps with
  | nil =>
    intro gs h
    simp only [List.foldl_nil]
    rw [zipWith_fst gs ds h]
  | cons p ps ih =>
    intro gs h
    simp only [List.foldl_cons]
    by_cases hc : c p
    · simp only [hc, if_true]
      rw [ih (List.zipWith (F p) gs ds) (by rw [List.length_zipWith]; omega),
        zipWith_zipWith_left]
    · simp only [hc, if_false]
      exact ih gs h

lemma listModify_id (l : List α) (i : ℕ) : listModify l i (fun a => a) = l := by
  induction l generalizing i with
  | nil => rfl
  | cons a t ih =>
    cases i with
    | zero => rfl
    | succ n => simp [listModify, ih]

lemma listModify_comp (l : List α) (i : ℕ) (f g : α → α) :
    listModify (listModify l i f) i g = listModify l i fun a => g (f a) := by
  induction l generalizing i with
  | nil => rfl
  | cons a t ih =>
    cases i with
    | zero => rfl
    | succ n => simp [listModify, ih]

lemma gridAdd_czero (g : Grid) (x y : ℕ) : gridAdd g x y czero = g := by
  have h1 : (fun c : Cplx => cadd c czero) = fun c : Cplx => c :=
    funext cadd_czero
  simp only [gridAdd, h1, listModify_id]

lemma gridAdd_cadd (g : Grid) (x y : ℕ) (a b : Cplx) :
    gridAdd (gridAdd g x y a) x y b = gridAdd g x y (cadd a b) := by
  simp only [gridAdd, listModify_comp]
  congr 1
  funext row
  congr 1
  funext c
  rw [cadd_assoc]

lemma foldl_gridAdd_csum (x y : ℕ) (f : ℕ → Cplx) (ls : List ℕ) :
    ∀ g : Grid, ls.foldl (fun g l => gridAdd g x y (f l)) g =
      gridAdd g x y (csum (ls.map f)) := by
  induction ls with
  | nil => intro g; simp [csum, gridAdd_czero]
  | cons l ls ih =>
    intro g
    simp only [List.foldl_cons, List.map_cons]
    rw [ih, gridAdd_cadd, csum_cons]

lemma pairList_mem {nbl nchan : ℕ} {jk : ℕ × ℕ} :
    jk ∈ pairList nbl nchan ↔ jk.1 < nbl ∧ jk.2 < nchan := by
  cases jk with
  | mk j k => simp [pairList, List.mem_flatMap, List.mem_range]

lemma foldl_congr_mem {l : List β} {f g : α → β → α}
    (h : ∀ b ∈ l, ∀ x, f x b = g x b) : ∀ a, l.foldl f a = l.foldl g a := by
  induction l with
  | nil => intro a; rfl
  | cons b t ih =>
    intro a
    simp only [List.foldl_cons]
    rw [h b (List.mem_cons_self b t) a]
    exact ih (fun bP hbP x => h bP (List.mem_cons_of_mem _ hbP) x) _

lemma truncQ_natCast (n : ℕ) : truncQ (n : ℚ) = n := by
  simp [truncQ, Int.floor_natCast]

lemma roundQ_natCast (n : ℕ) : roundQ (n : ℚ) = n := by
  have hf : (⌊(n : ℚ)⌋ : ℤ) = n := Int.floor_natCast n
  simp only [roundQ, hf]
  norm_num

lemma rect_mem_bl {data : VisCube} {nint nbl nchan npol : ℕ}
    (h : Rect4 data nint nbl nchan npol) {d : List (List (List Cplx))}
    (hd : d ∈ data) : d.length = nbl :=
  (h.2 d hd).1

lemma rect_mem_ch {data : VisCube} {nint nbl nchan npol : ℕ}
    (h : Rect4 data nint nbl nchan npol) {d : List (List (List Cplx))}
    (hd : d ∈ data) {b : List (List Cplx)} (hb : b ∈ d) : b.length = nchan :=
  ((h.2 d hd).2 b hb).1

lemma rect_mem_pol {data : VisCube} {nint nbl nchan npol : ℕ}
    (h : Rect4 data nint nbl nchan npol) {d : List (List (List Cplx))}
    (hd : d ∈ data) {b : List (List Cplx)} (hb : b ∈ d) {c : List Cplx}
    (hc : c ∈ b) : c.length = npol :=
  ((h.2 d hd).2 b hb).2 c hc

lemma rebuild4 (data : VisCube) (nint nbl nchan npol : ℕ)
    (hrect : Rect4 data nint nbl nchan npol) :
    (List.range data.length).map (fun i => (List.range (dimNbl data)).map fun j =>
      (List.range (dimNchan data)).map fun k =>
        (List.range (dimNpol data)).map fun l => getC4 data i j k l) = data := by
  by_cases hde : data = []
  · subst hde; simp
  · have hhead : data.getD 0 [] ∈ data :=
      getD_mem_of_lt _ _ _ (List.length_pos.mpr hde)
    have hbl : dimNbl data = nbl := rect_mem_bl hrect hhead
    apply map_range_eq_of_getD data [] _ data.length rfl
    intro i hi
    have hdi : data.getD i [] ∈ data := getD_mem_of_lt _ _ _ hi
    apply map_range_eq_of_getD _ [] _ (dimNbl data)
      (by rw [hbl, rect_mem_bl hrect hdi])
    intro j hj
    have hjbl : j < nbl := by rwa [hbl] at hj
    have hnbl : 0 < nbl := Nat.lt_of_le_of_lt (Nat.zero_le j) hjbl
    have hh2 : (data.getD 0 []).getD 0 [] ∈ data.getD 0 [] :=
      getD_mem_of_lt _ _ _ (by rw [rect_mem_bl hrect hhead]; exact hnbl)
    have hch : dimNchan data = nchan := rect_mem_ch hrect hhead hh2
    have hdij : (data.getD i []).getD j [] ∈ data.getD i [] :=
      getD_mem_of_lt _ _ _ (by rw [rect_mem_bl hrect hdi]; exact hjbl)
    apply map_range_eq_of_getD _ [] _ (dimNchan data)
      (by rw [hch, rect_mem_ch hrect hdi hdij])
    intro k hk
    have hkch : k < nchan := by rwa [hch] at hk
    have hnch : 0 < nchan := Nat.lt_of_le_of_lt (Nat.zero_le k) hkch
    have hh3 : ((data.getD 0 []).getD 0 []).getD 0 [] ∈ (data.getD 0 []).getD 0 [] :=
      getD_mem_of_lt _ _ _ (by rw [rect_mem_ch hrect hhead hh2]; exact hnch)
    have hpol : dimNpol data = npol := rect_mem_pol hrect hhead hh2 hh3
    have hdijk : ((data.getD i []).getD j []).getD k [] ∈ (data.getD i []).getD j [] :=
      getD_mem_of_lt _ _ _ (by rw [rect_mem_ch hrect hdi hdij]; exact hkch)
    apply map_range_eq_of_getD _ czero _ (dimNpol data)
      (by rw [hpol, rect_mem_pol hrect hdi hdij hdijk])
    intro l hl
    rfl

/-!
Claim theorems. -/

/-- Claim C1 (code_bug evidence): the claim says an unrecognized top-level
fftmode makes `prep_and_search` a recoverable no-op returning an empty
candidate collection without raising. In the code the unrecognized branch
only logs a warning and never binds `candcollection`, so the following
`candidates.save_cands(st, candcollection)` raises UnboundLocalError: for
every fftmode other than "cuda" and "fftw", `prep_and_search` raises instead
of returning. -/
theorem C1_unrecognized_fftmode_raises (fftmode : String)
    (cudaResult fftwResult : List Cand)
    (h1 : fftmode ≠ "cuda") (h2 : fftmode ≠ "fftw") :
    prep_and_search fftmode cudaResult fftwResult =
      .error .unboundLocalError := by
  simp [prep_and_search, h1, h2]

/-- Witness for C1 at the concrete unrecognized mode string "rfft". -/
theorem C1_unrecognized_fftmode_raises_witness :
    "rfft" ≠ "cuda" ∧ "rfft" ≠ "fftw" ∧
      prep_and_search "rfft" [] [] = .error .unboundLocalError :=
  ⟨by decide, by decide,
    C1_unrecognized_fftmode_raises "rfft" [] [] (by decide) (by decide)⟩

/-- Claim C8: for every all-zero input visibility cube, each of `dedisperse`,
`resample` and `dedisperseresample` returns the empty sequence (and returns
normally, i.e. no raised exception), on both backends. -/
theorem C8_all_zero_returns_empty (data : VisCube) (delay : List ℕ) (dt : ℕ)
    (parallel : Bool) (h : anyNonzero data = false) :
    dedisperse data delay parallel = .ok [] ∧
    resample data dt parallel = .ok [] ∧
    dedisperseresample data delay dt parallel = .ok [] := by
  refine ⟨?_, ?_, ?_⟩ <;>
    simp [dedisperse, resample, dedisperseresample, h]

/-- Witness for C8 on a concrete all-zero 1×1×1×1 cube with a nontrivial
delay table and dt. -/
theorem C8_all_zero_returns_empty_witness :
    anyNonzero [[[[czero]]]] = false ∧
    dedisperse [[[[czero]]]] [5] true = .ok [] ∧
    resample [[[[czero]]]] 3 true = .ok [] ∧
    dedisperseresample [[[[czero]]]] [5] 3 true = .ok [] :=
  ⟨by decide,
    (C8_all_zero_returns_empty [[[[czero]]]] [5] 3 true (by decide)).1,
    (C8_all_zero_returns_empty [[[[czero]]]] [5] 3 true (by decide)).2.1,
    (C8_all_zero_returns_empty [[[[czero]]]] [5] 3 true (by decide)).2.2⟩

/-- Claim C10: calling `kalman_significance` with `coeffs=[]` (so the
on-the-fly fallback runs) and empty `sig_ts` (so the default four smoothness
scales are used) always raises AssertionError: the fallback binds the whole
`(sig_ts, coeffs)` tuple returned by `kalman_prepare_coeffs` to `coeffs`, so
`len(coeffs)` is 2 while `len(sig_ts)` is 4, and the internal
`assert len(sig_ts) == len(coeffs)` fails before any significance is
computed. Holds for every spectrum, noise vector and Monte-Carlo outcome. -/
theorem C10_fallback_asserts (spec spec_std : List ℚ) (fit : ℚ → ℚ × ℚ)
    (logTerm : ℚ → ℚ) :
    kalman_significance spec spec_std [] [] fit logTerm =
      .error .assertionError := by
  simp [kalman_significance, kalman_prepare_coeffs, KCoeffs.pyLen]

/-- Claim C9 counterexample: the claim says the per-channel delay always
equals floor(scale·dm·(1/f²−1/fref²)/intTime). At freq 2 with freqref 1 the
scaled quantity is negative; the `int()` cast truncates toward zero and gives
0, while the floor is −1, so the claim as stated (for every channel
frequency and reference frequency) fails. -/
theorem C9_floor_counterexample :
    calc_delay [2] 1 1 1 none ≠
      [⌊(41488/10^7 : ℚ) * 1 * (1/2^2 - 1/1^2) / 1⌋] := by
  norm_num [calc_delay, truncQ]

/-- Claim C9 as amended: the delay is the truncation toward zero of
scale·dm·(1/f²−1/fref²)/intTime with the default scale 4.1488e-3, which
coincides with the floor exactly on channels where that quantity is
nonnegative (the physical case freq ≤ freqref, dm ≥ 0). -/
theorem C9_truncation_delay (freq : List ℚ) (freqref dm inttime : ℚ)
    (h : ∀ f ∈ freq, 0 ≤ 41488/10^7 * dm * (1/f^2 - 1/freqref^2) / inttime) :
    calc_delay freq freqref dm inttime none =
      freq.map fun f => ⌊41488/10^7 * dm * (1/f^2 - 1/freqref^2) / inttime⌋ := by
  simp only [calc_delay]
  apply List.map_congr_left
  intro f hf
  unfold truncQ
  rw [if_pos (h f hf)]

lemma calc_delay_input_nonneg :
    ∀ f ∈ [(1/2 : ℚ)], 0 ≤ 41488/10^7 * 1 * (1/f^2 - 1/1^2) / 1 := by
  intro f hf
  simp only [List.mem_singleton] at hf
  subst hf
  norm_num

/-- Witness for C9 at a physical input (freq 1/2 below freqref 1). -/
theorem C9_truncation_delay_witness :
    calc_delay [1/2] 1 1 1 none =
      List.map (fun f => ⌊(41488/10^7 : ℚ) * 1 * (1/f^2 - 1/1^2) / 1⌋) [1/2] :=
  C9_truncation_delay [1/2] 1 1 1 calc_delay_input_nonneg

lemma madtostd_const_ones : madtostd [1, 1, 1, 1] = 0 := by
  norm_num [madtostd, npMedian, sortQ, insertQ]

/-- Claim C3 counterexample: the claim says that on every backend a zero
robust noise estimate makes the peak SNR a defined 0. The constant image
[1,1,1,1] has `madtostd = 0`, and the fftw path computes
`image.max()/util.madtostd(image)` with no guard, so the quotient is
non-finite (modelled `none`), not the defined value 0. -/
theorem C3_fftw_unguarded_counterexample :
    madtostd [1, 1, 1, 1] = 0 ∧ fftwPeakSnr [1, 1, 1, 1] = none ∧
      fftwPeakSnr [1, 1, 1, 1] ≠ some 0 := by
  refine ⟨madtostd_const_ones, ?_, ?_⟩ <;>
    simp [fftwPeakSnr, pyDiv, madtostd_const_ones]

/-- Claim C3 as amended: only the GPU path defines peak SNR as 0 when the
noise estimate (rms) is zero; the fftw path computes the unguarded quotient,
which for a zero `madtostd` is non-finite (inf/nan), never the defined 0. -/
theorem C3_zero_noise_behavior :
    (∀ mx : ℚ, cudaPeakSnr mx 0 = 0) ∧
    (∀ image : List ℚ, madtostd image = 0 → fftwPeakSnr image = none) := by
  constructor
  · intro mx
    simp [cudaPeakSnr]
  · intro image h
    simp [fftwPeakSnr, pyDiv, h]

/-- Witness for C3 at concrete inputs: GPU stats (max 5, rms 0) and the
constant image. -/
theorem C3_zero_noise_behavior_witness :
    cudaPeakSnr 5 0 = 0 ∧ madtostd [1, 1, 1, 1] = 0 ∧
      fftwPeakSnr [1, 1, 1, 1] = none :=
  ⟨C3_zero_noise_behavior.1 5, madtostd_const_ones,
    C3_zero_noise_behavior.2 [1, 1, 1, 1] madtostd_const_ones⟩

/-- Claim C2 counterexample: the claim says every candidate appended to the
in-flight buffer is included in the returned collection for every supported
searchtype including the arm modes. In `imagearmk` mode one accepted
candidate is appended to `canddatalist`, but the branch never flushes, so
the returned collection is empty and does not contain it. -/
theorem C2_arm_no_flush_counterexample :
    search_thresh_fftw "imagearmk" [0] 8 100 = .ok [] ∧
      (0 : Cand) ∉ ([] : List Cand) :=
  ⟨by decide, by decide⟩

/-- Claim C2 as amended: when the trial grid is exhausted the final flush is
performed — and hence every buffered candidate reaches the returned
collection — for searchtypes image1 and image1k and for the cuda path; the
arm-based branch of `search_thresh_fftw` has no flush at all, so its
accepted candidates are discarded (imagearmk returns the empty collection;
imagearm raises NameError on the undefined `armimage` before that). -/
theorem C2_final_flush_by_mode (accepted : List Cand)
    (bytespercd memlimit : ℚ) (dtarr : List ℕ)
    (h1 : dtarr.headD 0 = 1) (h2 : dyadicLadder dtarr = true) :
    search_thresh_fftw "image1" accepted bytespercd memlimit = .ok accepted ∧
    search_thresh_fftw "image1k" accepted bytespercd memlimit = .ok accepted ∧
    dedisperse_image_cuda dtarr true accepted bytespercd memlimit =
      .ok accepted ∧
    search_thresh_fftw "imagearmk" accepted bytespercd memlimit = .ok [] := by
  have hj := accumLoop_join bytespercd memlimit accepted
  refine ⟨?_, ?_, ?_, ?_⟩
  · simp [search_thresh_fftw, calc_features, hj]
  · simp [search_thresh_fftw, calc_features, hj]
  · have h1h : dtarr.head?.getD 0 = 1 := by
      cases dtarr with
      | nil => simp at h1
      | cons a t => exact h1
    simp [dedisperse_image_cuda, h2, calc_features, hj, h1h]
  · simp [search_thresh_fftw]

/-- Witness for C2 with one accepted candidate and a dyadic dt ladder. -/
theorem C2_final_flush_by_mode_witness :
    ([1, 2] : List ℕ).headD 0 = 1 ∧ dyadicLadder [1, 2] = true ∧
    search_thresh_fftw "image1" [7] 1 1 = .ok [7] ∧
    dedisperse_image_cuda [1, 2] true [7] 1 1 = .ok [7] :=
  ⟨by decide, by decide,
    (C2_final_flush_by_mode [7] 1 1 [1, 2] (by decide) (by decide)).1,
    (C2_final_flush_by_mode [7] 1 1 [1, 2] (by decide) (by decide)).2.2.1⟩


/-- Claim C6 counterexample: the claim says dedisperseresample(C, 0, 1) == C
for every cube C. For the all-zero (flagged) 1Ã1Ã1Ã1 cube the wrapper
short-circuits and returns the empty array, which is not the input cube. -/
theorem C6_identity_counterexample :
    dedisperseresample [[[[czero]]]] [0] 1 false = .ok [] ∧
      (Except.ok ([] : VisCube) : Except PyErr VisCube) ≠ .ok [[[[czero]]]] :=
  ⟨by decide, by decide⟩

/-- Claim C6 as amended: fused dedisperse-and-resample with an all-zero delay
table and dt = 1 is the identity on every cube that contains at least one
nonzero sample (on both backends); all-zero cubes short-circuit to the empty
result instead. -/
theorem C6_identity_on_nonzero (data : VisCube) (delay : List ℕ)
    (parallel : Bool) (nint nbl nchan npol : ℕ)
    (hrect : Rect4 data nint nbl nchan npol) (hne : delay ≠ [])
    (hz : ∀ x ∈ delay, x = 0) (hany : anyNonzero data = true) :
    dedisperseresample data delay 1 parallel = .ok data := by
  have hmax : listMaxN delay = 0 := listMaxN_all_zero delay hz
  have hemp : delay.isEmpty = false := by
    cases delay with
    | nil => exact absurd rfl hne
    | cons a t => rfl
  have hcell : ∀ i j k l : ℕ,
      cellAccum (drAccess data delay 1 i j k l) = getC4 data i j k l := by
    intro i j k l
    have hacc : drAccess data delay 1 i j k l = [getC4 data i j k l] := by
      have hd0 : delay[k]?.getD 0 = 0 := by
        rw [← List.getD_eq_getElem?_getD]
        exact getD_all_zero delay hz k
      have hr1 : List.range 1 = [0] := by decide
      simp [drAccess, hd0, hr1]
    rw [hacc, cellAccum_singleton]
  cases parallel with
  | false =>
    simp [dedisperseresample, hany, hemp, hmax]
    simp only [_dedisperseresample_jit, hcell]
    exact rebuild4 data nint nbl nchan npol hrect
  | true =>
    simp [dedisperseresample, hany, hemp, hmax, _dedisperseresample_gu]

/-- Witness for C6 on a concrete nonzero 1Ã1Ã1Ã1 cube. -/
theorem C6_identity_on_nonzero_witness :
    Rect4 [[[[(1, 0)]]]] 1 1 1 1 ∧ anyNonzero [[[[(1, 0)]]]] = true ∧
      dedisperseresample [[[[(1, 0)]]]] [0] 1 false = .ok [[[[(1, 0)]]]] :=
  ⟨by decide, by decide,
    C6_identity_on_nonzero [[[[(1, 0)]]]] [0] false 1 1 1 1 (by decide)
      (by decide) (by decide) (by decide)⟩

/-- Claim C7: in the fused kernel, the output cell (i, j, k, l) accumulates
exactly the dt input samples data[i*dt + delay[k] + r, j, k, l] for r in
[0, dt) with the nonzero-sample weight rule (`cellAccum` over `drAccess`);
consequently a cell whose dt samples are all flagged (zero) is exactly 0,
and a cell with exactly one non-flagged sample among the dt samples returns
that sample unchanged. -/
theorem C7_fused_cell_semantics (data : VisCube) (delay : List ℕ)
    (dt nintout i j k l : ℕ) (hi : i < nintout) (hj : j < dimNbl data)
    (hk : k < dimNchan data) (hl : l < dimNpol data) :
    getC4 (_dedisperseresample_jit data delay dt nintout) i j k l =
      cellAccum (drAccess data delay dt i j k l) ∧
    ((∀ x ∈ drAccess data delay dt i j k l, x = czero) →
      getC4 (_dedisperseresample_jit data delay dt nintout) i j k l = czero) ∧
    (∀ v l₁ l₂, v ≠ czero →
      drAccess data delay dt i j k l = l₁ ++ v :: l₂ →
      (∀ x ∈ l₁, x = czero) → (∀ x ∈ l₂, x = czero) →
      getC4 (_dedisperseresample_jit data delay dt nintout) i j k l = v) := by
  have hbase : getC4 (_dedisperseresample_jit data delay dt nintout) i j k l =
      cellAccum (drAccess data delay dt i j k l) := by
    simp only [_dedisperseresample_jit, getC4]
    rw [getD_range_map _ _ _ hi, getD_range_map _ _ _ hj,
      getD_range_map _ _ _ hk, getD_range_map _ _ _ hl]
  refine ⟨hbase, ?_, ?_⟩
  · intro hzero
    rw [hbase]
    exact cellAccum_all_zero _ hzero
  · intro v l₁ l₂ hv he h₁ h₂
    rw [hbase, he]
    exact cellAccum_single v l₁ l₂ hv h₁ h₂

/-- Witness for C7 on a concrete 2Ã1Ã1Ã1 cube with dt = 2: the window holds
one nonzero sample (5, 0) and one flagged sample, and the output cell is
(5, 0) unchanged. -/
theorem C7_fused_cell_semantics_witness :
    drAccess [[[[(5, 0)]]], [[[(0, 0)]]]] [0] 2 0 0 0 0 =
      [] ++ ((5 : ℚ), (0 : ℚ)) :: [(0, 0)] ∧
    getC4 (_dedisperseresample_jit [[[[(5, 0)]]], [[[(0, 0)]]]] [0] 2 1)
      0 0 0 0 = (5, 0) :=
  ⟨by decide,
    (C7_fused_cell_semantics [[[[(5, 0)]]], [[[(0, 0)]]]] [0] 2 1 0 0 0 0
        (by decide) (by decide) (by decide) (by decide)).2.2
      (5, 0) [] [(0, 0)] (by decide) (by decide) (by decide) (by decide)⟩

lemma pairLists_eq {data : VisCube} {nint nbl nchan npol : ℕ}
    (hrect : Rect4 data nint nbl nchan npol)
    {d : List (List (List Cplx))} (hd : d ∈ data) :
    pairList d.length (d.getD 0 []).length =
      pairList (dimNbl data) (dimNchan data) := by
  have hne : data ≠ [] := List.ne_nil_of_mem hd
  have hhead : data.getD 0 [] ∈ data :=
    getD_mem_of_lt _ _ _ (List.length_pos.mpr hne)
  have h1 : d.length = dimNbl data := by
    rw [rect_mem_bl hrect hd]
    exact (rect_mem_bl hrect hhead).symm
  by_cases hbl : nbl = 0
  · have hd0 : d.length = 0 := by rw [rect_mem_bl hrect hd, hbl]
    have hdim : dimNbl data = 0 := by rw [← h1, hd0]
    rw [hd0, hdim]
    simp [pairList]
  · have hblpos : 0 < nbl := Nat.pos_of_ne_zero hbl
    have h2 : (d.getD 0 []).length = dimNchan data := by
      have hd2 : d.getD 0 [] ∈ d :=
        getD_mem_of_lt _ _ _ (by rw [rect_mem_bl hrect hd]; exact hblpos)
      have hh2 : (data.getD 0 []).getD 0 [] ∈ data.getD 0 [] :=
        getD_mem_of_lt _ _ _ (by rw [rect_mem_bl hrect hhead]; exact hblpos)
      rw [rect_mem_ch hrect hd hd2]
      exact (rect_mem_ch hrect hhead hh2).symm
    rw [h1, h2]

/-- Claim C5 counterexample: the claim describes the gridder (both backends)
as rounding the scaled coordinates and discarding pairs with
|coordinate| ≥ npix/2. On a 2×2 grid with scaled coordinate −2 the spec
description discards the pair (|−2| ≥ 1), but `_grid_visibilities_jit`
keeps it — its guard `np.abs(ubl < npixx//2)` takes `abs` of the comparison
boolean, leaving no lower bound — and deposits the visibility at the folded
cell, so the jit backend does not satisfy the description. -/
theorem C5_jit_deviates_counterexample :
    _grid_visibilities_jit [[[[(1, 0)]]]] [[-2]] [[0]] 2 2 1 ≠
      specGrid_visibilities [[[[(1, 0)]]]] [[-2]] [[0]] 2 2 1 := by
  have h1 : truncQ (-2 : ℚ) = -2 := by norm_num [truncQ]
  have h2 : truncQ (0 : ℚ) = 0 := by norm_num [truncQ]
  have h3 : roundQ (-2 : ℚ) = -2 := by norm_num [roundQ]
  have h4 : roundQ (0 : ℚ) = 0 := by norm_num [roundQ]
  have hp : pairList 1 1 = [(0, 0)] := by decide
  have hr : List.range 1 = [0] := by decide
  simp [_grid_visibilities_jit, specGrid_visibilities, hp, hr, getQ2, getC3,
    gridAdd, listModify, zeroGrid, dimNbl, dimNchan, dimNpol, cadd, czero,
    csum, h1, h2, h3, h4, List.foldl_cons, List.foldl_nil]

/-- Claim C5 as amended: the parallel (`guvectorize`) backend implements the
description exactly — for each (baseline, channel) it computes round(u/res),
round(v/res), discards pairs at or beyond npixx//2 npixy//2 in absolute value, folds by modulo
and accumulates all polarizations at that cell for every integration — as
stated by equality with the spec-modelled gridder on every rectangular cube;
the sequential jit backend deviates (truncation, upper bound only). -/
theorem C5_gu_matches_spec_description (data : VisCube) (u v : List (List ℚ))
    (npixx npixy : ℕ) (uvres : ℚ) (nint nbl nchan npol : ℕ)
    (hrect : Rect4 data nint nbl nchan npol) :
    _grid_visibilities_gu data u v npixx npixy uvres =
      specGrid_visibilities data u v npixx npixy uvres := by
  simp only [_grid_visibilities_gu, specGrid_visibilities]
  apply List.map_congr_left
  intro dint hd
  refine foldl_congr_mem ?_ (zeroGrid npixx npixy)
  intro jk hjk g
  obtain ⟨hj, hk⟩ := pairList_mem.mp hjk
  by_cases hc : |roundQ (getQ2 u jk.1 jk.2 / uvres)| < ((npixx / 2 : ℕ) : ℤ) ∧
      |roundQ (getQ2 v jk.1 jk.2 / uvres)| < ((npixy / 2 : ℕ) : ℤ)
  · rw [if_pos hc, if_neg (by push_neg; exact hc)]
    rw [foldl_gridAdd_csum]
    have hblpos : 0 < dint.length := Nat.lt_of_le_of_lt (Nat.zero_le _) hj
    have hrow0 : dint.getD 0 [] ∈ dint := getD_mem_of_lt _ _ _ hblpos
    have hchpos : 0 < (dint.getD 0 []).length :=
      Nat.lt_of_le_of_lt (Nat.zero_le _) hk
    have hcell0 : (dint.getD 0 []).getD 0 [] ∈ dint.getD 0 [] :=
      getD_mem_of_lt _ _ _ hchpos
    have hjrow : dint.getD jk.1 [] ∈ dint := getD_mem_of_lt _ _ _ hj
    have hkrow : (dint.getD jk.1 []).getD jk.2 [] ∈ dint.getD jk.1 [] := by
      apply getD_mem_of_lt
      rw [rect_mem_ch hrect hd hjrow]
      rw [rect_mem_ch hrect hd hrow0] at hk
      exact hk
    congr 1
    congr 1
    apply map_range_eq_of_getD _ czero _ _ ?_ ?_
    · rw [rect_mem_pol hrect hd hrow0 hcell0,
        rect_mem_pol hrect hd hjrow hkrow]
    · intro l hl
      rfl
  · rw [if_neg hc, if_pos ?_]
    rcases not_and_or.mp hc with h | h
    · exact Or.inl (not_lt.mp h)
    · exact Or.inr (not_lt.mp h)

/-- Witness for C5 on a concrete in-field 1×1×1×1 cube. -/
theorem C5_gu_matches_spec_description_witness :
    Rect4 [[[[(1, 0)]]]] 1 1 1 1 ∧
      _grid_visibilities_gu [[[[(1, 0)]]]] [[0]] [[0]] 4 4 1 =
        specGrid_visibilities [[[[(1, 0)]]]] [[0]] [[0]] 4 4 1 :=
  ⟨by decide,
    C5_gu_matches_spec_description [[[[(1, 0)]]]] [[0]] [[0]] 4 4 1 1 1 1 1
      (by decide)⟩

lemma jit_as_map (data : VisCube) (u v : List (List ℚ)) (npixx npixy : ℕ)
    (uvres : ℚ) :
    _grid_visibilities_jit data u v npixx npixy uvres =
      data.map fun dint =>
        (pairList (dimNbl data) (dimNchan data)).foldl
          (fun g jk =>
            if truncQ (getQ2 u jk.1 jk.2 / uvres) < ((npixx / 2 : ℕ) : ℤ) ∧
                truncQ (getQ2 v jk.1 jk.2 / uvres) < ((npixy / 2 : ℕ) : ℤ) then
              (List.range (dimNpol data)).foldl
                (fun g l => gridAdd g
                  ((truncQ (getQ2 u jk.1 jk.2 / uvres) % (npixx : ℤ)).toNat)
                  ((truncQ (getQ2 v jk.1 jk.2 / uvres) % (npixy : ℤ)).toNat)
                  (getC3 dint jk.1 jk.2 l)) g
            else g)
          (zeroGrid npixx npixy) := by
  have key := foldl_ite_zipWith
    (fun jk : ℕ × ℕ =>
      truncQ (getQ2 u jk.1 jk.2 / uvres) < ((npixx / 2 : ℕ) : ℤ) ∧
        truncQ (getQ2 v jk.1 jk.2 / uvres) < ((npixy / 2 : ℕ) : ℤ))
    (fun jk (g : Grid) dint =>
      (List.range (dimNpol data)).foldl
        (fun g l => gridAdd g
          ((truncQ (getQ2 u jk.1 jk.2 / uvres) % (npixx : ℤ)).toNat)
          ((truncQ (getQ2 v jk.1 jk.2 / uvres) % (npixy : ℤ)).toNat)
          (getC3 dint jk.1 jk.2 l)) g)
    (pairList (dimNbl data) (dimNchan data)) data
    (List.replicate data.length (zeroGrid npixx npixy)) (by simp)
  rw [zipWith_replicate_map] at key
  exact key

/-- Claim C4 counterexample: the claim says the sequential and data-parallel
gridding backends produce the same grids up to floating-point rounding. With
scaled coordinate −3/2 on a 2×2 grid, `_grid_visibilities_jit` truncates to
−1, keeps the pair (no lower bound in its guard) and folds it to row 1,
while `_grid_visibilities_gu` rounds to −2 and discards the pair, so one
grid holds the visibility and the other is all zero — a structural
difference, not rounding noise. -/
theorem C4_backend_equivalence_counterexample :
    _grid_visibilities_jit [[[[(1, 0)]]]] [[-3/2]] [[0]] 2 2 1 ≠
      _grid_visibilities_gu [[[[(1, 0)]]]] [[-3/2]] [[0]] 2 2 1 := by
  have h1 : truncQ (-3/2 : ℚ) = -1 := by norm_num [truncQ]
  have h2 : truncQ (0 : ℚ) = 0 := by norm_num [truncQ]
  have h3 : roundQ (-3/2 : ℚ) = -2 := by norm_num [roundQ]
  have h4 : roundQ (0 : ℚ) = 0 := by norm_num [roundQ]
  have hp : pairList 1 1 = [(0, 0)] := by decide
  have hr : List.range 1 = [0] := by decide
  simp [_grid_visibilities_jit, _grid_visibilities_gu, hp, hr, getQ2, getC3,
    gridAdd, listModify, zeroGrid, dimNbl, dimNchan, dimNpol, cadd, czero,
    h1, h2, h3, h4, List.foldl_cons, List.foldl_nil]

/-- Claim C4 as amended: the two backends are not observationally equivalent
in general (see the counterexample); they do agree whenever every scaled
coordinate u/cellRes, v/cellRes is a nonnegative integer smaller than
npix//2 — then truncation and rounding coincide and both guards pass — for
every rectangular visibility cube. -/
theorem C4_backend_equivalence_on_integral_grid (data : VisCube)
    (u v : List (List ℚ)) (npixx npixy : ℕ) (uvres : ℚ)
    (nint nbl nchan npol : ℕ) (hrect : Rect4 data nint nbl nchan npol)
    (hu : ∀ j k, j < nbl → k < nchan →
      ∃ n : ℕ, getQ2 u j k / uvres = (n : ℚ) ∧ n < npixx / 2)
    (hv : ∀ j k, j < nbl → k < nchan →
      ∃ n : ℕ, getQ2 v j k / uvres = (n : ℚ) ∧ n < npixy / 2) :
    _grid_visibilities_jit data u v npixx npixy uvres =
      _grid_visibilities_gu data u v npixx npixy uvres := by
  by_cases hde : data = []
  · subst hde
    simp [_grid_visibilities_jit, _grid_visibilities_gu, pairList, dimNbl,
      dimNchan]
  · have hhead : data.getD 0 [] ∈ data :=
      getD_mem_of_lt _ _ _ (List.length_pos.mpr hde)
    have hbl : dimNbl data = nbl := rect_mem_bl hrect hhead
    rw [jit_as_map]
    simp only [_grid_visibilities_gu]
    apply List.map_congr_left
    intro dint hd
    rw [pairLists_eq hrect hd]
    refine foldl_congr_mem ?_ (zeroGrid npixx npixy)
    intro jk hjk g
    obtain ⟨hjd, hkd⟩ := pairList_mem.mp hjk
    have hj : jk.1 < nbl := by rwa [hbl] at hjd
    have hblpos : 0 < nbl := Nat.lt_of_le_of_lt (Nat.zero_le _) hj
    have hh2 : (data.getD 0 []).getD 0 [] ∈ data.getD 0 [] :=
      getD_mem_of_lt _ _ _ (by rw [rect_mem_bl hrect hhead]; exact hblpos)
    have hch : dimNchan data = nchan := rect_mem_ch hrect hhead hh2
    have hk : jk.2 < nchan := by rwa [hch] at hkd
    obtain ⟨n, hn, hnlt⟩ := hu jk.1 jk.2 hj hk
    obtain ⟨p, hp2, hplt⟩ := hv jk.1 jk.2 hj hk
    have hcu : truncQ (getQ2 u jk.1 jk.2 / uvres) = (n : ℤ) := by
      rw [hn, truncQ_natCast]
    have hcv : truncQ (getQ2 v jk.1 jk.2 / uvres) = (p : ℤ) := by
      rw [hp2, truncQ_natCast]
    have hru : roundQ (getQ2 u jk.1 jk.2 / uvres) = (n : ℤ) := by
      rw [hn, roundQ_natCast]
    have hrv : roundQ (getQ2 v jk.1 jk.2 / uvres) = (p : ℤ) := by
      rw [hp2, roundQ_natCast]
    have hcondu : (n : ℤ) < ((npixx / 2 : ℕ) : ℤ) := by exact_mod_cast hnlt
    have hcondv : (p : ℤ) < ((npixy / 2 : ℕ) : ℤ) := by exact_mod_cast hplt
    simp only [hcu, hcv, hru, hrv]
    rw [if_pos ⟨hcondu, hcondv⟩,
      if_pos ⟨by rw [Int.abs_natCast]; exact hcondu,
        by rw [Int.abs_natCast]; exact hcondv⟩]
    have hnchpos : 0 < nchan := Nat.lt_of_le_of_lt (Nat.zero_le _) hk
    have hh3 : ((data.getD 0 []).getD 0 []).getD 0 [] ∈
        (data.getD 0 []).getD 0 [] :=
      getD_mem_of_lt _ _ _ (by rw [rect_mem_ch hrect hhead hh2]; exact hnchpos)
    have hrow0 : dint.getD 0 [] ∈ dint :=
      getD_mem_of_lt _ _ _ (by rw [rect_mem_bl hrect hd]; exact hblpos)
    have hcell0 : (dint.getD 0 []).getD 0 [] ∈ dint.getD 0 [] :=
      getD_mem_of_lt _ _ _ (by rw [rect_mem_ch hrect hd hrow0]; exact hnchpos)
    have hnpol : ((dint.getD 0 []).getD 0 []).length = dimNpol data := by
      rw [rect_mem_pol hrect hd hrow0 hcell0]
      exact (rect_mem_pol hrect hhead hh2 hh3).symm
    rw [hnpol]

lemma grid_uv_integral :
    ∀ j k, j < 1 → k < 1 →
      ∃ n : ℕ, getQ2 [[0]] j k / 1 = (n : ℚ) ∧ n < 4 / 2 := by
  intro j k hj hk
  refine ⟨0, ?_, by decide⟩
  have hj0 : j = 0 := Nat.lt_one_iff.mp hj
  have hk0 : k = 0 := Nat.lt_one_iff.mp hk
  subst hj0
  subst hk0
  norm_num [getQ2]

/-- Witness for C4 on a concrete cube whose scaled coordinates are the
integer 0, inside a 4×4 grid. -/
theorem C4_backend_equivalence_on_integral_grid_witness :
    Rect4 [[[[(1, 0)]]]] 1 1 1 1 ∧
      _grid_visibilities_jit [[[[(1, 0)]]]] [[0]] [[0]] 4 4 1 =
        _grid_visibilities_gu [[[[(1, 0)]]]] [[0]] [[0]] 4 4 1 :=
  ⟨by decide,
    C4_backend_equivalence_on_integral_grid [[[[(1, 0)]]]] [[0]] [[0]] 4 4 1
      1 1 1 1 (by decide) grid_uv_integral grid_uv_integral⟩
